import Mathlib

/-!
Verification development for the NYCETA feature-extraction pipeline
(`obtain_features.py`).  The Python source is shallowly embedded:

* matrix entries (floats in the source) become rationals `ℚ`;
* scipy sparse / numpy dense matrices become a tagged list-of-rows type `Mat`;
* fallible operations (scipy index checks, numpy `IndexError`,
  Python exceptions and `exit(1)`) become `Option`;
* the database is abstracted into the row lists the queries return,
  exactly at the query boundaries of the source functions.
-/

namespace NYCETA

/-! ## Basic string parsing helpers

The source uses Python `str.split(sep)` and `int(...)`.  We mirror them on
`List Char`: `splitOnChar c cs` is `"...".split(c)` (split at every
occurrence of the separator, keeping empty pieces), and `digitsToNat?`
is `int(...)` restricted to the all-digit strings that occur in well-formed
timestamps (Python `int` would also accept signs and surrounding
whitespace; such strings never reach these call sites in the claims). -/

def splitOnChar (sep : Char) : List Char → List (List Char)
  | [] => [[]]
  | c :: cs =>
    let rest := splitOnChar sep cs
    if c = sep then
      [] :: rest
    else
      match rest with
      | [] => [[c]]
      | piece :: pieces => (c :: piece) :: pieces

def digitsToNat? (cs : List Char) : Option Nat :=
  if cs ≠ [] ∧ cs.all (·.isDigit) then
    some (cs.foldl (fun a c => a * 10 + (c.toNat - 48)) 0)
  else
    none

/-! ## One-hot encoding (`get_one_hot`)

`get_one_hot(values, min_val, max_val)` builds
`sparse.csr_matrix((ones, (rows, cols)), shape=(len(values), max-min+1))`
with `cols[i] = values[i] - min_val`.  scipy's coo/csr constructor
validates the index arrays: a negative column index or a column index
`≥ shape[1]` raises `ValueError` (so an out-of-range value makes the call
fail); with zero entries no check fires.  A materialized row of the
resulting matrix is a unit row with the 1 at column `v - min_val`. -/

def oneHotRow (j w : Nat) : List ℚ :=
  List.replicate j 0 ++ 1 :: List.replicate (w - j - 1) 0

def get_one_hot (values : List Int) (min_val max_val : Int) : Option (List (List ℚ)) :=
  if values.all (fun v => min_val ≤ v && v ≤ max_val) then
    some (values.map (fun v => oneHotRow (v - min_val).toNat (max_val - min_val + 1).toNat))
  else
    none

/-! ## Datetime parsing (`parse_datetime`)

`parse_datetime` splits each string `"yyyy-mm-dd hh:mn:ss"` on the space,
the date part on `-` and the time part on `:`, converts the pieces with
`int`, and computes the weekday via `datetime.date(y, m, d).weekday() + 1`.
`datetime.date` validates the calendar date (raises `ValueError` for
year outside 1..9999, month outside 1..12, day outside the month's
length), while the hour/minute/second fields are *not* range checked.
`date.weekday()` is Monday=0..Sunday=6 over the proleptic Gregorian
calendar; we compute it from a standard civil-days count. -/

def isLeap (y : Int) : Bool :=
  (y % 4 = 0 && y % 100 ≠ 0) || (y % 400 = 0)

def daysInMonth (y m : Int) : Int :=
  if m = 2 then (if isLeap y then 29 else 28)
  else if m = 4 ∨ m = 6 ∨ m = 9 ∨ m = 11 then 30
  else 31

def validDate (y m d : Int) : Bool :=
  1 ≤ y && y ≤ 9999 && 1 ≤ m && m ≤ 12 && 1 ≤ d && d ≤ daysInMonth y m

/-- Days since 1970-01-01 of a proleptic-Gregorian date (Hinnant's civil
algorithm; all divisions are taken on nonnegative operands, so `Int`
truncated division agrees with floor division). -/
def daysFromCivil (y m d : Int) : Int :=
  let yy := if m ≤ 2 then y - 1 else y
  let era := (if 0 ≤ yy then yy else yy - 399) / 400
  let yoe := yy - era * 400
  let mp := (m + 9) % 12
  let doy := (153 * mp + 2) / 5 + d - 1
  let doe := yoe * 365 + yoe / 4 - yoe / 100 + doy
  era * 146097 + doe - 719468

/-- Python `datetime.date(y, m, d).weekday()`: Monday=0 .. Sunday=6.
1970-01-01 was a Thursday (= 3). -/
def pyWeekday (y m d : Int) : Int :=
  (daysFromCivil y m d + 3).emod 7

/-- The per-row content of the six parallel lists `parse_datetime` returns:
`dates, months, hours, minutes, seconds, weekdays` (the source keeps them
as a list of six lists; we transpose to a list of per-row records). -/
structure DTComp where
  date : Int
  month : Int
  hour : Int
  minute : Int
  second : Int
  weekday : Int
deriving DecidableEq, Repr

/-- One timestamp string through the body of `parse_datetime`:
split on `" "`, the date on `"-"`, the time on `":"`, `int(...)` each
piece, and `datetime.date(...).weekday() + 1` (which validates the date).
A shape mismatch or a non-numeric piece is a parse failure. -/
def parseOne (s : String) : Option DTComp :=
  match splitOnChar ' ' s.toList with
  | [datePart, timePart] =>
    match (splitOnChar '-' datePart).map digitsToNat?,
          (splitOnChar ':' timePart).map digitsToNat? with
    | [some y, some mo, some d], [some h, some mi, some se] =>
      if validDate (y : Int) (mo : Int) (d : Int) then
        some ⟨(d : Int), (mo : Int), (h : Int), (mi : Int), (se : Int),
              pyWeekday (y : Int) (mo : Int) (d : Int) + 1⟩
      else none
    | _, _ => none
  | _ => none

/-- `parse_datetime(datetime_strs)`: every string parsed; any failure
aborts the whole call. -/
def parse_datetime (strs : List String) : Option (List DTComp) :=
  strs.mapM parseOne

/-! ## Matrices

The pipeline moves between `scipy.sparse.csr_matrix` and dense
`numpy.ndarray`; several functions branch on `isinstance(..., np.ndarray)`.
We keep the rows (as lists of rationals) together with the representation
family tag. -/

inductive Mat where
  | sparse (rows : List (List ℚ))
  | dense (rows : List (List ℚ))
deriving DecidableEq, Repr

def Mat.rowsOf : Mat → List (List ℚ)
  | .sparse r => r
  | .dense r => r

def Mat.isSparse : Mat → Bool
  | .sparse _ => true
  | .dense _ => false

/-- `np.hstack` / `sparse.hstack` of two blocks with equal row counts:
concatenate row-wise. -/
def hstack2 (A B : List (List ℚ)) : List (List ℚ) :=
  List.zipWith (· ++ ·) A B

/-- `np.vstack` when both operands are `np.ndarray`, otherwise
`sparse.vstack(..., format="csr")` (lines 429-433 / 623-627). -/
def vstackMat (A B : Mat) : Mat :=
  match A, B with
  | .dense a, .dense b => .dense (a ++ b)
  | a, b => .sparse (a.rowsOf ++ b.rowsOf)

/-! ## Datetime feature encoding (`obtain_date_time_features`)

With the one-hot flags the six component lists become one-hot blocks of
widths 31, 12, 24, 60, 60, 7; without them they become single numeric
columns, hour/minute/second shifted by +1.  The six blocks are
concatenated in the fixed order dates, months, hours, minutes, seconds,
weekdays (lines 99 and 101 use the same order; the result is sparse when
any one-hot flag is set, dense otherwise — that tag is re-derived by the
caller `get_naive_features` from the same flags, so we return bare rows). -/

def obtain_date_time_features (dts : List DTComp) (datetime_onehot weekdays_onehot : Bool) :
    Option (List (List ℚ)) := do
  let dates ← if datetime_onehot then get_one_hot (dts.map (·.date)) 1 31
              else pure (dts.map fun t => [(t.date : ℚ)])
  let months ← if datetime_onehot then get_one_hot (dts.map (·.month)) 1 12
               else pure (dts.map fun t => [(t.month : ℚ)])
  let hours ← if datetime_onehot then get_one_hot (dts.map (·.hour)) 0 23
              else pure (dts.map fun t => [((t.hour + 1 : Int) : ℚ)])
  let minutes ← if datetime_onehot then get_one_hot (dts.map (·.minute)) 0 59
                else pure (dts.map fun t => [((t.minute + 1 : Int) : ℚ)])
  let seconds ← if datetime_onehot then get_one_hot (dts.map (·.second)) 0 59
                else pure (dts.map fun t => [((t.second + 1 : Int) : ℚ)])
  let weekdays ← if weekdays_onehot then get_one_hot (dts.map (·.weekday)) 1 7
                 else pure (dts.map fun t => [(t.weekday : ℚ)])
  return hstack2 (hstack2 (hstack2 (hstack2 (hstack2 dates months) hours) minutes) seconds) weekdays

/-! ## Significance filter (`get_significant_data`) -/

/-- numpy boolean-mask row selection `xs[mask]`: keep the entries whose
mask bit is true, in order (defined for `mask` of the same length). -/
def maskKeep {α : Type} (xs : List α) (mask : List Bool) : List α :=
  ((xs.zip mask).filter (·.2)).map (·.1)

/-- `get_significant_data(features, values, cutoff)`: a sparse input is
densified (`toarray`) with `typeflag` remembered, rows are selected by the
mask `values <= cutoff` on both the features and the values, and a sparse
input is converted back with `sparse.csr_matrix`. -/
def get_significant_data (features : Mat) (values : List ℚ) (cutoff : ℚ) : Mat × List ℚ :=
  let typeflag := features.isSparse
  let rows := features.rowsOf
  let mask := values.map (fun v => decide (v ≤ cutoff))
  let rows2 := maskKeep rows mask
  let values2 := maskKeep values mask
  (if typeflag then .sparse rows2 else .dense rows2, values2)

/-! ## Row transformer (`get_naive_features`) -/

/-- numpy 1-D integer indexing `arr[i]`: negative indices wrap once,
out-of-range raises `IndexError`. -/
def npGet {α : Type} (l : List α) (i : Int) : Option α :=
  if 0 ≤ i then l.get? i.toNat
  else if -(l.length : Int) ≤ i then l.get? (l.length + i).toNat
  else none

/-- numpy 1-D element assignment `arr[i] = v` with the same index rules. -/
def npSet {α : Type} (l : List α) (i : Int) (v : α) : Option (List α) :=
  if 0 ≤ i ∧ i < (l.length : Int) then some (l.set i.toNat v)
  else if -(l.length : Int) ≤ i ∧ i < 0 then some (l.set ((l.length : Int) + i).toNat v)
  else none

/-- A raw ride row as fetched from the rides table: pickup/drop-off
timestamp strings and the two location ids (`rows[:,2]`, `rows[:,3]`
passed through `int`). -/
structure Ride where
  pickup : String
  dropoff : String
  puLoc : Int
  doLoc : Int
deriving DecidableEq, Repr

/-- The target value (lines 229-236): Python
`timedelta(days=Δd, hours=Δh, minutes=Δm, seconds=Δs).seconds`.
`timedelta` normalizes to `(days, seconds)` with `0 ≤ seconds < 86400`,
so `.seconds` is the *total* delta in seconds taken modulo 86400
(Python `%`, i.e. `Int.emod`); whole-day deltas are discarded, and month
and year never enter the formula at all. -/
def timedeltaSeconds (p d : DTComp) : Int :=
  ((d.date - p.date) * 86400 + (d.hour - p.hour) * 3600 +
   (d.minute - p.minute) * 60 + (d.second - p.second)).emod 86400

/-- The sub-block concatenation branches of `get_naive_features`
(lines 212-227), given the already-built blocks. -/
def naiveFeatureMatrix (PUDatetime PUCoords DOCoords PUBoroughs DOBoroughs : List (List ℚ))
    (PULocID DOLocID : List Int) (maxLocID : Int)
    (datetime_onehot weekdays_onehot include_loc_ids use_nn_ordering : Bool) : Option Mat :=
  if include_loc_ids then
    (get_one_hot PULocID 1 maxLocID).bind fun puOH =>
      (get_one_hot DOLocID 1 maxLocID).bind fun doOH =>
        some (Mat.sparse (hstack2 (hstack2 (hstack2 (hstack2 (hstack2 (hstack2
          puOH PUCoords) PUBoroughs) doOH) DOCoords) DOBoroughs) PUDatetime))
  else if datetime_onehot || weekdays_onehot then
    if use_nn_ordering then
      some (Mat.sparse (hstack2 (hstack2 (hstack2 (hstack2
        PUCoords PUBoroughs) DOCoords) DOBoroughs) PUDatetime))
    else
      some (Mat.sparse (hstack2 (hstack2 (hstack2 (hstack2
        PUDatetime PUCoords) DOCoords) PUBoroughs) DOBoroughs))
  else
    if use_nn_ordering then
      some (Mat.dense (hstack2 (hstack2 (hstack2 (hstack2
        PUCoords PUBoroughs) DOCoords) DOBoroughs) PUDatetime))
    else
      some (Mat.dense (hstack2 (hstack2 (hstack2 (hstack2
        PUDatetime PUCoords) DOCoords) PUBoroughs) DOBoroughs))

/-- `get_naive_features(rows, coords, boros, maxLocID, datetime_onehot,
weekdays_onehot, include_loc_ids, use_nn_ordering)`.  Parse both
timestamp columns (a pickup parse failure is caught and `exit(1)`s, a
drop-off failure raises — both are `none` here), build the pickup
datetime block, look up coordinate pairs and borough rows for both
location ids, pick the sub-block ordering from the flags, and compute
the per-row target. -/
def get_naive_features (rows : List Ride) (coords : List (ℚ × ℚ)) (boros : List (List ℚ))
    (maxLocID : Int) (datetime_onehot weekdays_onehot include_loc_ids use_nn_ordering : Bool) :
    Option (Mat × List ℚ) := do
  let pdt ← parse_datetime (rows.map (·.pickup))
  let ddt ← parse_datetime (rows.map (·.dropoff))
  let PUDatetime ← obtain_date_time_features pdt datetime_onehot weekdays_onehot
  let PULocID := rows.map (·.puLoc)
  let DOLocID := rows.map (·.doLoc)
  let PUCoords ← PULocID.mapM (fun i => (npGet coords i).map fun c => [c.1, c.2])
  let DOCoords ← DOLocID.mapM (fun i => (npGet coords i).map fun c => [c.1, c.2])
  let PUBoroughs ← PULocID.mapM (npGet boros)
  let DOBoroughs ← DOLocID.mapM (npGet boros)
  let fv ← naiveFeatureMatrix PUDatetime PUCoords DOCoords PUBoroughs DOBoroughs
    PULocID DOLocID maxLocID datetime_onehot weekdays_onehot include_loc_ids use_nn_ordering
  let time_taken := List.zipWith (fun p d => ((timedeltaSeconds p d : Int) : ℚ)) pdt ddt
  return (fv, time_taken)

/-! ## Reference loaders (`extract_all_coordinates`, `extract_all_boroughs`) -/

/-- The placement loop of `extract_all_coordinates` (lines 125-127):
`coords = np.zeros((len(rows), 2))`, then `coords[ID-1] = [lat, lon]`
for each fetched `(ID, lat, lon)` triple, with numpy index semantics. -/
def placeCoords : List (Int × ℚ × ℚ) → List (ℚ × ℚ) → Option (List (ℚ × ℚ))
  | [], acc => some acc
  | r :: rest, acc =>
    match npSet acc (r.1 - 1) (r.2.1, r.2.2) with
    | none => none
    | some acc2 => placeCoords rest acc2

/-- Column minimum, `x₀` seeded with the first element (the list is
required nonempty by the caller). -/
def colMin (x : ℚ) (xs : List ℚ) : ℚ := xs.foldl min x

def colMax (x : ℚ) (xs : List ℚ) : ℚ := xs.foldl max x

/-- `sklearn` `MinMaxScaler` on one value of one column: `(x - mn) / rg`
with a zero range replaced by 1 (`_handle_zeros_in_scale`), so a constant
column maps to 0. -/
def mmScale (mn rg x : ℚ) : ℚ :=
  if rg = 0 then x - mn else (x - mn) / rg

/-- `MinMaxScaler().fit_transform` on an `n × 2` array: each of the two
columns is min-max scaled independently; fitting an empty array raises
(`Found array with 0 sample(s)`). -/
def minMaxScale (A : List (ℚ × ℚ)) : Option (List (ℚ × ℚ)) :=
  match A with
  | [] => none
  | p :: ps =>
    let mn1 := colMin p.1 (ps.map (·.1))
    let mx1 := colMax p.1 (ps.map (·.1))
    let mn2 := colMin p.2 (ps.map (·.2))
    let mx2 := colMax p.2 (ps.map (·.2))
    some (A.map fun q => (mmScale mn1 (mx1 - mn1) q.1, mmScale mn2 (mx2 - mn2) q.2))

/-- `extract_all_coordinates(conn, table, normalized)` with the query
result abstracted as the fetched `(LocationID, lat, long)` triples:
place each triple at index `ID-1` of a zero array sized by the *row
count*, optionally min-max normalize both axes, then prepend a zero row
so ids index directly. -/
def extract_all_coordinates (rows : List (Int × ℚ × ℚ)) (normalized : Bool) :
    Option (List (ℚ × ℚ)) :=
  (placeCoords rows (List.replicate rows.length (0, 0))).bind fun A =>
    (if normalized then minMaxScale A else some A).bind fun A2 =>
      some ((0, 0) :: A2)

/-- Modelled from the spec: the module `borough_labels` imported by the
source is not under `src/`; per §6 it is a fixed constant table mapping
the six region names to distinct integer codes, and the source's
`get_one_hot(boroughs, 1, 6)` call shows the codes to be 1..6.  The
particular name↔code pairing is irrelevant to every claim below. -/
def BOROUGHS : List (String × Int) :=
  [("EWR", 1), ("Queens", 2), ("Bronx", 3), ("Manhattan", 4),
   ("Brooklyn", 5), ("Staten Island", 6)]

/-- `row[1] in borough_labels.BOROUGHS` / `borough_labels.BOROUGHS[row[1]]`. -/
def lookupBoro (name : String) : Option Int :=
  (BOROUGHS.find? (fun e => e.1 = name)).map (·.2)

/-- The labelling loop of `extract_all_boroughs` (lines 158-161):
`boroughs = np.zeros(maxLocID)`; a row with a known region name writes
its code at index `ID-1`, a row with an unknown name is skipped. -/
def fillBoros : List (Int × String) → List Int → Option (List Int)
  | [], acc => some acc
  | r :: rest, acc =>
    match lookupBoro r.2 with
    | none => fillBoros rest acc
    | some code =>
      match npSet acc (r.1 - 1) code with
      | none => none
      | some acc2 => fillBoros rest acc2

/-- `extract_all_boroughs(conn, table, maxLocID)` with the query result
abstracted as the fetched `(LocationID, Borough)` pairs: run the
labelling loop over a zero array of length `maxLocID`, one-hot encode the
whole code array with range `[1, 6]` (`.toarray()`), and prepend a zero
row. -/
def extract_all_boroughs (rows : List (Int × String)) (maxLocID : Nat) :
    Option (List (List ℚ)) := do
  let filled ← fillBoros rows (List.replicate maxLocID 0)
  let oh ← get_one_hot filled 1 6
  return List.replicate 6 (0 : ℚ) :: oh

/-! ## Region-pair restriction (`filter_for_boros`)

`filter_for_boros(command, start, end, two_way)` wraps the ride query in

    SELECT ... FROM (command) r, locations l1, locations l2
    WHERE l1.LocationID = r.PULocationID AND l2.LocationID = r.DOLocationID
    AND <condition>

with `<condition>` either
`(l1.B in start AND l2.B in end) OR (l2.B in start AND l1.B in end)`
(two_way) or `l1.B in start AND l2.B in end` (directional).  We embed the
row-inclusion semantics of the rewritten query over a locations table. -/

def boroCond (b1 b2 : String) (startSet endSet : List String) (two_way : Bool) : Bool :=
  if two_way then
    (b1 ∈ startSet && b2 ∈ endSet) || (b2 ∈ startSet && b1 ∈ endSet)
  else
    b1 ∈ startSet && b2 ∈ endSet

/-- Whether the rewritten query keeps a ride with pickup location `pu`
and drop-off location `dl`, given the `locations` table rows. -/
def filter_for_boros_keeps (locs : List (Int × String)) (pu dl : Int)
    (startSet endSet : List String) (two_way : Bool) : Bool :=
  locs.any fun l1 => locs.any fun l2 =>
    l1.1 = pu && l2.1 = dl && boroCond l1.2 l2.2 startSet endSet two_way

/-- The region filter as applied by the block-shuffled variant:
`extract_batch_features` accepts a `two_way` argument but line 598 calls
`filter_for_boros(..., two_way=True)` unconditionally. -/
def batchVariantKeeps (locs : List (Int × String)) (pu dl : Int)
    (startSet endSet : List String) (two_way : Bool) : Bool :=
  filter_for_boros_keeps locs pu dl startSet endSet true

/-! ## Cutoff lookup (`get_cutoff_value`) -/

/-- The scan loop of `get_cutoff_value`: `cv = -1`, then the first entry
whose first column equals `n` sets `cv` and breaks. -/
def cutoffScan (n : ℚ) : List (ℚ × ℚ) → ℚ
  | [] => -1
  | e :: rest => if e.1 = n then e.2 else cutoffScan n rest

/-- `get_cutoff_value(n, datacsv)` with the loaded two-column table
abstracted as `(multiplier, cutoff)` pairs; `cv == -1` after the loop
prints and `exit(1)`s (`none`). -/
def get_cutoff_value (n : ℚ) (table : List (ℚ × ℚ)) : Option ℚ :=
  let cv := cutoffScan n table
  if cv = -1 then none else some cv

/-! ## Exhaustive paged scan (`extract_all_features`)

The database interaction is abstracted at the query boundary: page
`batch_num` (the query at `OFFSET batch_num * limit`) either raises a
`sqlite3.Error` or returns a list of ride rows.  The while loop runs for
`batch_num = 0, 1, ...` as long as `batch_num * limit < NUM_ROWS`
(`batch_num` increments on every non-error iteration), so it performs at
most `⌈NUM_ROWS / limit⌉ ≤ NUM_ROWS` iterations and a fuel of `NUM_ROWS`
is always sufficient. -/

inductive PageResult where
  | err : PageResult
  | ok : List Ride → PageResult

/-- `limit = 1e6` (line 364). -/
def pageLimit : Nat := 1000000

structure XOpts where
  datetime_onehot : Bool
  weekdays_onehot : Bool
  include_loc_ids : Bool
  use_nn_ordering : Bool
deriving DecidableEq, Repr

/-- The while loop of `extract_all_features` (lines 385-435).  The
accumulator is `none` while `set_flag` is false.  On a query error the
loop breaks and the function returns the accumulated pair — which raises
`UnboundLocalError` if nothing was ever assigned (outer `some acc`
carries the break; a `none` result of the whole loop is an exception
raised inside the transformation).  Note the source passes
`use_nn_ordering` only on the first (`set_flag` unset) call to
`get_naive_features`; the `else` branch (lines 424-427) omits it, so
later pages are built with the default `use_nn_ordering=False`.
`accumStep` appends one page's filtered result to the running
accumulator (`set_flag` false ↦ `none`: the first result is installed;
otherwise the matrices are vstacked and the outputs concatenated). -/
def accumStep (acc : Option (Mat × List ℚ)) (fo : Mat × List ℚ) : Mat × List ℚ :=
  match acc with
  | none => fo
  | some (F, O) => (vstackMat F fo.1, O ++ fo.2)

def goPages (pages : Nat → PageResult) (numRows : Nat) (coords : List (ℚ × ℚ))
    (boros : List (List ℚ)) (opts : XOpts) (cutoff : ℚ) :
    Nat → Nat → Option (Mat × List ℚ) → Option (Option (Mat × List ℚ))
  | 0, _, acc => some acc
  | fuel + 1, batchNum, acc =>
    if batchNum * pageLimit < numRows then
      match pages batchNum with
      | .err => some acc
      | .ok rows =>
        if rows = [] then
          goPages pages numRows coords boros opts cutoff fuel (batchNum + 1) acc
        else
          match get_naive_features rows coords boros 263
              opts.datetime_onehot opts.weekdays_onehot opts.include_loc_ids
              (if acc = none then opts.use_nn_ordering else false) with
          | none => none
          | some (f, o) =>
            goPages pages numRows coords boros opts cutoff fuel (batchNum + 1)
              (some (accumStep acc (get_significant_data f o cutoff)))
    else
      some acc

/-- `extract_all_features` with the reference tables passed in directly
(the source loads them from the database first) and the rides table
abstracted into its row count and page responses. -/
def extract_all_features (pages : Nat → PageResult) (numRows : Nat) (coords : List (ℚ × ℚ))
    (boros : List (List ℚ)) (opts : XOpts) (cutoff : ℚ) : Option (Mat × List ℚ) :=
  match goPages pages numRows coords boros opts cutoff numRows 0 none with
  | none => none
  | some none => none
  | some (some r) => some r

/-! ## Entry point (`extract_features`): effect ordering

For claim C8 only the order of external effects and the outcome matter.
`extract_features` first calls `get_cutoff_value` — which loads the
cutoff CSV (`np.loadtxt`), an I/O action, and `exit(1)`s if the
multiplier is absent — and only then dispatches on `variant`.  For
`variant='batch'` the three configuration checks `sys.exit` before
`extract_batch_features` is invoked; and since that function is a
generator, even a valid configuration issues no database query during
the `extract_features` call itself (queries start on the first `next`). -/

inductive Event where
  | csvLoad : Event
  | dbQuery : Event
deriving DecidableEq, Repr

inductive Outcome where
  | lookupFail : Outcome
  | configFail (msg : String) : Outcome
  | done : Outcome
deriving DecidableEq, Repr

/-- The effect trace and outcome of one `extract_features` call (lines
673-702), with the rides/reference queries of the `all` and `random`
variants collapsed into a single `dbQuery` marker. -/
def extract_features_trace (variant : String) (size block_size : Option Int)
    (csvTable : List (ℚ × ℚ)) (stddev_multiplier : ℚ) : List Event × Outcome :=
  match get_cutoff_value stddev_multiplier csvTable with
  | none => ([Event.csvLoad], .lookupFail)
  | some _ =>
    if variant = "all" then ([Event.csvLoad, Event.dbQuery], .done)
    else if variant = "random" then ([Event.csvLoad, Event.dbQuery], .done)
    else if variant = "batch" then
      match size with
      | none => ([Event.csvLoad], .configFail "Please provide the size of the batch.")
      | some s =>
        match block_size with
        | none => ([Event.csvLoad], .configFail "Please provide an block_size value.")
        | some b =>
          if s % b > 0 then
            ([Event.csvLoad],
             .configFail "Please provide a batch size that is a multiple of block size.")
          else
            ([Event.csvLoad], .done)
    else ([Event.csvLoad], .configFail "Type must be one of all, random, batch.")

/-! ## Shared concrete reference data for witnesses -/

/-- A small coordinates array (index 0 is the dummy zero entry;
integer-valued coordinates keep kernel evaluation free of rational
normalization). -/
def cWit : List (ℚ × ℚ) := [(0, 0), (5, 7), (11, 13)]

/-- A small boroughs array (index 0 is the dummy zero row). -/
def bWit : List (List ℚ) :=
  [[0, 0, 0, 0, 0, 0], [1, 0, 0, 0, 0, 0], [0, 1, 0, 0, 0, 0]]

/-- The ride of the spec's hand-computed example: a 10-minute-5-second
trip from location 1 to location 2. -/
def rideWit : Ride := ⟨"2020-01-01 00:00:00", "2020-01-01 00:10:05", 1, 2⟩

/-! ## Claim C10: the -1 sentinel of `get_cutoff_value` -/

theorem cutoffScan_eq_find (n : ℚ) (table : List (ℚ × ℚ)) :
    cutoffScan n table = (((table.find? (fun e => e.1 = n)).map (·.2)).getD (-1)) := by
  induction table with
  | nil => rfl
  | cons e rest ih =>
    by_cases he : e.1 = n
    · simp [cutoffScan, List.find?, he]
    · simp [cutoffScan, List.find?, he, ih]

/-- Claim C10: `get_cutoff_value` uses -1 as its internal not-found
sentinel: it returns the cutoff of the first entry whose multiplier
equals `n` when that cutoff is not -1; a first-matching entry whose
stored cutoff *is* -1 is indistinguishable from an absent multiplier and
the call terminates the program (`none`), exactly as when no entry
matches. -/
theorem get_cutoff_value_sentinel (n : ℚ) (table : List (ℚ × ℚ)) :
    (∀ c : ℚ, (table.find? (fun e => e.1 = n)).map (·.2) = some c → c ≠ -1 →
       get_cutoff_value n table = some c) ∧
    ((table.find? (fun e => e.1 = n)).map (·.2) = some (-1) →
       get_cutoff_value n table = none) ∧
    (table.find? (fun e => e.1 = n) = none → get_cutoff_value n table = none) := by
  refine ⟨fun c hc hne => ?_, fun hc => ?_, fun hc => ?_⟩
  · simp [get_cutoff_value, cutoffScan_eq_find, hc, hne]
  · simp [get_cutoff_value, cutoffScan_eq_find, hc]
  · simp [get_cutoff_value, cutoffScan_eq_find, hc]

theorem get_cutoff_value_sentinel_witness :
    get_cutoff_value 1 [(1, 100), (2, -1)] = some 100 ∧
    get_cutoff_value 2 [(1, 100), (2, -1)] = none ∧
    get_cutoff_value 3 [(1, 100), (2, -1)] = none :=
  ⟨(get_cutoff_value_sentinel 1 [(1, 100), (2, -1)]).1 100 (by decide) (by decide),
   (get_cutoff_value_sentinel 2 [(1, 100), (2, -1)]).2.1 (by decide),
   (get_cutoff_value_sentinel 3 [(1, 100), (2, -1)]).2.2 (by decide)⟩

/-! ## Claim C3: region-pair restriction direction -/

/-- Claim C3 (code bug): with locations 1↦"X" and 2↦"Y" and region sets
start={"X"}, end={"Y"}, the rewritten query in directional mode keeps the
forward ride 1→2 and excludes the reverse ride 2→1, and bidirectional
mode keeps both — but the block-shuffled variant (`extract_batch_features`)
passes `two_way=True` unconditionally at line 598, so under
`two_way=False` it still keeps the reverse ride 2→1, contradicting its
own docstring and the claim. -/
theorem batch_variant_two_way_bug :
    filter_for_boros_keeps [(1, "X"), (2, "Y")] 1 2 ["X"] ["Y"] false = true ∧
    filter_for_boros_keeps [(1, "X"), (2, "Y")] 2 1 ["X"] ["Y"] false = false ∧
    filter_for_boros_keeps [(1, "X"), (2, "Y")] 2 1 ["X"] ["Y"] true = true ∧
    batchVariantKeeps [(1, "X"), (2, "Y")] 2 1 ["X"] ["Y"] false = true := by
  decide

/-! ## Claim C2: unknown region names -/

/-- Claim C2 (counterexample): a region table whose single row has an
unknown region name does *not* make `extract_all_boroughs` return
normally with a zero row for that location — the location's code stays
0, and `get_one_hot(boroughs, 1, 6)` then fails on the out-of-range
value (scipy rejects the negative column index), so the call fails. -/
theorem extract_all_boroughs_unknown_counterexample :
    extract_all_boroughs [(1, "Nowhere")] 1 = none := by decide

theorem fillBoros_filter_known (rows : List (Int × String)) :
    ∀ acc, fillBoros rows acc =
      fillBoros (rows.filter (fun r => (lookupBoro r.2).isSome)) acc := by
  induction rows with
  | nil => intro acc; rfl
  | cons r rest ih =>
    intro acc
    cases hb : lookupBoro r.2 with
    | none => simp [fillBoros, hb, List.filter, ih]
    | some code =>
      cases hs : npSet acc (r.1 - 1) code with
      | none => simp [fillBoros, hb, hs, List.filter]
      | some acc2 => simp [fillBoros, hb, hs, List.filter, ih]

/-- Claim C2 (amended): rows with unknown region names are skipped by the
labelling loop in the sense that the whole call behaves exactly as if
those rows were absent; but the skipped location keeps code 0, and
whenever any location slot is still 0 after the loop the subsequent
one-hot encoding over codes 1..6 fails, so the call does not return
normally (it raises) instead of yielding a zero vector for that
location. -/
theorem extract_all_boroughs_unknown_amended (rows : List (Int × String)) (maxLocID : Nat) :
    (extract_all_boroughs rows maxLocID =
       extract_all_boroughs (rows.filter (fun r => (lookupBoro r.2).isSome)) maxLocID) ∧
    (∀ filled, fillBoros rows (List.replicate maxLocID 0) = some filled →
       (0 : Int) ∈ filled → extract_all_boroughs rows maxLocID = none) := by
  constructor
  · simp [extract_all_boroughs, fillBoros_filter_known]
  · intro filled hf h0
    simp [extract_all_boroughs, hf, get_one_hot]
    refine ⟨0, h0, ?_⟩
    omega

theorem extract_all_boroughs_unknown_amended_witness :
    fillBoros [((1 : Int), "Nowhere"), (2, "Queens")] (List.replicate 2 0) = some [0, 2] ∧
    (0 : Int) ∈ [(0 : Int), 2] ∧
    extract_all_boroughs [((1 : Int), "Nowhere"), (2, "Queens")] 2 = none :=
  ⟨by decide, by decide,
   (extract_all_boroughs_unknown_amended [((1 : Int), "Nowhere"), (2, "Queens")] 2).2
     [0, 2] (by decide) (by decide)⟩

/-! ## Claim C6: the significance filter -/

theorem maskKeep_self_filter {α : Type} (p : α → Bool) (ys : List α) :
    maskKeep ys (ys.map p) = ys.filter p := by
  induction ys with
  | nil => rfl
  | cons y ys ih =>
    cases hy : p y <;> simp [maskKeep, List.filter, hy] at ih ⊢ <;> exact ih

theorem maskKeep_zip_filter {α β : Type} (p : β → Bool) :
    ∀ (xs : List α) (ys : List β), ys.length = xs.length →
      (maskKeep xs (ys.map p)).zip (maskKeep ys (ys.map p)) =
        (xs.zip ys).filter (fun q => p q.2) := by
  intro xs
  induction xs with
  | nil => intro ys h; simp at h; simp [h, maskKeep]
  | cons x xs ih =>
    intro ys h
    cases ys with
    | nil => simp at h
    | cons y ys =>
      simp at h
      cases hy : p y <;> simp [maskKeep, List.filter, hy] at ih ⊢ <;>
        exact ih ys h

theorem maskKeep_length_le {α : Type} (xs : List α) (mask : List Bool) :
    (maskKeep xs mask).length ≤ xs.length := by
  calc (maskKeep xs mask).length
      = ((xs.zip mask).filter (·.2)).length := by simp [maskKeep]
    _ ≤ (xs.zip mask).length := List.length_filter_le _ _
    _ ≤ xs.length := by simp [List.length_zip]

/-- Claim C6: `get_significant_data(F, T, c)` (for `T` of the same row
count as `F`) keeps exactly the rows whose target is ≤ the cutoff, in
their original relative order with row/target correspondence preserved,
never grows the row count, and returns the feature matrix in the same
representation family (sparse vs dense) as the input. -/
theorem get_significant_data_spec (F : Mat) (T : List ℚ) (c : ℚ)
    (hlen : T.length = F.rowsOf.length) :
    ((get_significant_data F T c).1.rowsOf.zip (get_significant_data F T c).2 =
       (F.rowsOf.zip T).filter (fun q => decide (q.2 ≤ c))) ∧
    ((get_significant_data F T c).2 = T.filter (fun v => decide (v ≤ c))) ∧
    ((get_significant_data F T c).1.rowsOf.length ≤ F.rowsOf.length) ∧
    ((get_significant_data F T c).1.isSparse = F.isSparse) := by
  have hrows : (get_significant_data F T c).1.rowsOf =
      maskKeep F.rowsOf (T.map (fun v => decide (v ≤ c))) := by
    cases F <;> simp [get_significant_data, Mat.isSparse, Mat.rowsOf]
  have hvals : (get_significant_data F T c).2 =
      maskKeep T (T.map (fun v => decide (v ≤ c))) := by
    cases F <;> simp [get_significant_data, Mat.isSparse, Mat.rowsOf]
  refine ⟨?_, ?_, ?_, ?_⟩
  · rw [hrows, hvals, maskKeep_zip_filter _ _ _ hlen]
  · rw [hvals, maskKeep_self_filter]
  · rw [hrows]; exact maskKeep_length_le _ _
  · cases F <;> simp [get_significant_data, Mat.isSparse, Mat.rowsOf]

theorem get_significant_data_spec_witness :
    ([(10 : ℚ), 3, 7].length = (Mat.sparse [[1], [2], [3]]).rowsOf.length) ∧
    (((get_significant_data (Mat.sparse [[1], [2], [3]]) [10, 3, 7] 7).1.rowsOf.zip
        (get_significant_data (Mat.sparse [[1], [2], [3]]) [10, 3, 7] 7).2 =
       ((Mat.sparse [[1], [2], [3]]).rowsOf.zip [10, 3, 7]).filter
         (fun q => decide (q.2 ≤ 7))) ∧
     ((get_significant_data (Mat.sparse [[1], [2], [3]]) [10, 3, 7] 7).2 =
       [(10 : ℚ), 3, 7].filter (fun v => decide (v ≤ 7))) ∧
     ((get_significant_data (Mat.sparse [[1], [2], [3]]) [10, 3, 7] 7).1.rowsOf.length ≤
       (Mat.sparse [[1], [2], [3]]).rowsOf.length) ∧
     ((get_significant_data (Mat.sparse [[1], [2], [3]]) [10, 3, 7] 7).1.isSparse =
       (Mat.sparse [[1], [2], [3]]).isSparse)) :=
  ⟨by decide, get_significant_data_spec (Mat.sparse [[1], [2], [3]]) [10, 3, 7] 7 (by decide)⟩

/-! ## Claim C8: configuration failure of the batch variant -/

/-- Claim C8 (counterexample): calling the entry point with
`variant='batch'` and a size (10) that is not a multiple of the block
size (3) does fail with the configuration error, but *after* I/O has
already been performed: `get_cutoff_value` loads the cutoff CSV before
any configuration check runs, so the effect trace before the failure is
not empty. -/
theorem extract_features_batch_io_counterexample :
    ((extract_features_trace "batch" (some 10) (some 3) [(1, 500)] 1).2 =
       Outcome.configFail "Please provide a batch size that is a multiple of block size.") ∧
    ((extract_features_trace "batch" (some 10) (some 3) [(1, 500)] 1).1 ≠ []) := by
  decide

/-- Claim C8 (amended): for `variant='batch'` with a missing size, a
missing block size, or a size that is not an exact multiple of the block
size (and a cutoff multiplier present in the CSV, since the cutoff
lookup runs first and would otherwise exit with a lookup error), the
call fails with a configuration error before any query is issued to the
relational source — but after the cutoff CSV has been loaded, so not
before all I/O. -/
theorem extract_features_batch_config_amended (size block_size : Option Int)
    (csv : List (ℚ × ℚ)) (mult : ℚ)
    (hcsv : ∃ cv, get_cutoff_value mult csv = some cv)
    (hbad : size = none ∨ block_size = none ∨
      ∃ s b : Int, size = some s ∧ block_size = some b ∧ s % b > 0) :
    (∃ m, (extract_features_trace "batch" size block_size csv mult).2 =
       Outcome.configFail m) ∧
    Event.dbQuery ∉ (extract_features_trace "batch" size block_size csv mult).1 := by
  obtain ⟨cv, hcv⟩ := hcsv
  rcases hbad with h | h | ⟨s, b, hs, hb, hmod⟩
  · subst h; simp [extract_features_trace, hcv]
  · subst h
    cases size with
    | none => simp [extract_features_trace, hcv]
    | some s => simp [extract_features_trace, hcv]
  · subst hs; subst hb
    simp [extract_features_trace, hcv, hmod]

theorem extract_features_batch_config_amended_witness :
    (∃ cv : ℚ, get_cutoff_value 1 [(1, 500)] = some cv) ∧
    ((some 10 : Option Int) = none ∨ (some 3 : Option Int) = none ∨
      ∃ s b : Int, (some 10 : Option Int) = some s ∧ (some 3 : Option Int) = some b ∧
        s % b > 0) ∧
    ((∃ m, (extract_features_trace "batch" (some 10) (some 3) [(1, 500)] 1).2 =
        Outcome.configFail m) ∧
      Event.dbQuery ∉ (extract_features_trace "batch" (some 10) (some 3) [(1, 500)] 1).1) :=
  ⟨⟨500, by decide⟩, Or.inr (Or.inr ⟨10, 3, rfl, rfl, by decide⟩),
   extract_features_batch_config_amended (some 10) (some 3) [(1, 500)] 1 ⟨500, by decide⟩
     (Or.inr (Or.inr ⟨10, 3, rfl, rfl, by decide⟩))⟩

/-! ## Claim C1: the target value -/

theorem mapM_option_get {α β : Type} (f : α → Option β) :
    ∀ (xs : List α) (ys : List β), xs.mapM f = some ys →
      ∀ i : Nat, ys.get? i = (xs.get? i).bind f := by
  intro xs
  induction xs with
  | nil =>
    intro ys h i
    simp only [List.mapM_nil, Option.pure_def, Option.some.injEq] at h
    subst h
    simp
  | cons x xs ih =>
    intro ys h i
    simp only [List.mapM_cons, Option.pure_def, Option.bind_eq_bind,
      Option.bind_eq_some, Option.some.injEq] at h
    obtain ⟨y, hy, ys2, hys2, rfl⟩ := h
    cases i with
    | zero => simp [hy]
    | succ i => simpa using ih ys2 hys2 i

theorem zipWith_option_get {α β γ : Type} (f : α → β → γ) :
    ∀ (as : List α) (bs : List β) (i : Nat),
      (List.zipWith f as bs).get? i =
        (as.get? i).bind (fun a => (bs.get? i).map (f a)) := by
  intro as
  induction as with
  | nil => intro bs i; simp
  | cons a as ih =>
    intro bs i
    cases bs with
    | nil => simp
    | cons b bs =>
      cases i with
      | zero => simp
      | succ i => simpa using ih bs i

/-- Claim C1 (counterexample): a ride whose drop-off is one day and five
seconds after pickup gets target 5, not 86405: the `.seconds` attribute
of the Python `timedelta` discards whole days instead of contributing
the full day delta in seconds. -/
theorem naive_target_day_counterexample :
    ((get_naive_features [⟨"2020-01-01 00:00:00", "2020-01-02 00:00:05", 1, 2⟩]
        cWit bWit 263 false false false false).map (fun p => p.2) = some [(5 : ℚ)]) ∧
    (5 : ℚ) ≠ 86405 := by
  decide

/-- Claim C1 (amended): for every ride row processed by
`get_naive_features`, the returned target equals the day/hour/minute/
second delta of drop-off minus pickup, in seconds, *taken modulo 86400
into [0, 86400)* (the `.seconds` component of the Python `timedelta`):
month and year deltas are ignored and whole-day deltas survive only
modulo one day.  The spec's hand-computed example still holds: pickup
`2020-01-01 00:00:00`, dropoff `2020-01-01 00:10:05` yields 605. -/
theorem get_naive_features_parses (rows : List Ride) (coords : List (ℚ × ℚ))
    (boros : List (List ℚ)) (maxLocID : Int) (dh wh il nn : Bool) (M : Mat) (T : List ℚ)
    (h : get_naive_features rows coords boros maxLocID dh wh il nn = some (M, T)) :
    ∃ pdt ddt, parse_datetime (rows.map (fun r => r.pickup)) = some pdt ∧
      parse_datetime (rows.map (fun r => r.dropoff)) = some ddt ∧
      T = List.zipWith (fun p d => ((timedeltaSeconds p d : Int) : ℚ)) pdt ddt := by
  unfold get_naive_features at h
  obtain ⟨pdt, hpd, h⟩ := Option.bind_eq_some.mp h
  obtain ⟨ddt, hdd, h⟩ := Option.bind_eq_some.mp h
  obtain ⟨PUD, hdt, h⟩ := Option.bind_eq_some.mp h
  obtain ⟨pc, hpc, h⟩ := Option.bind_eq_some.mp h
  obtain ⟨dc, hdc, h⟩ := Option.bind_eq_some.mp h
  obtain ⟨pb, hpb, h⟩ := Option.bind_eq_some.mp h
  obtain ⟨db, hdb, h⟩ := Option.bind_eq_some.mp h
  obtain ⟨fv, hfv, h⟩ := Option.bind_eq_some.mp h
  simp only [Option.pure_def, Option.some.injEq, Prod.mk.injEq] at h
  exact ⟨pdt, ddt, hpd, hdd, h.2.symm⟩

theorem naive_target_amended (rows : List Ride) (coords : List (ℚ × ℚ))
    (boros : List (List ℚ)) (maxLocID : Int) (dh wh il nn : Bool) (M : Mat) (T : List ℚ)
    (h : get_naive_features rows coords boros maxLocID dh wh il nn = some (M, T))
    (i : Nat) (r : Ride) (hr : rows.get? i = some r)
    (P Q : DTComp) (hp : parseOne r.pickup = some P) (hq : parseOne r.dropoff = some Q) :
    T.get? i = some ((((Q.date - P.date) * 86400 + (Q.hour - P.hour) * 3600 +
      (Q.minute - P.minute) * 60 + (Q.second - P.second)).emod 86400 : Int) : ℚ) := by
  obtain ⟨pdt, ddt, hpd, hdd, hT⟩ :=
    get_naive_features_parses rows coords boros maxLocID dh wh il nn M T h
  rw [hT, zipWith_option_get]
  have h1 : pdt.get? i = some P := by
    rw [mapM_option_get parseOne _ _ hpd i, List.get?_map, hr]
    simp [hp]
  have h2 : ddt.get? i = some Q := by
    rw [mapM_option_get parseOne _ _ hdd i, List.get?_map, hr]
    simp [hq]
  rw [h1, h2]
  simp [timedeltaSeconds]

theorem naive_target_amended_witness :
    (get_naive_features [rideWit] cWit bWit 263 false false false false =
       some (Mat.dense
         [[1, 1, 1, 1, 1, 3, 5, 7, 11, 13, 1, 0, 0, 0, 0, 0, 0, 1, 0, 0, 0, 0]],
        [(605 : ℚ)])) ∧
    ([(605 : ℚ)].get? 0 =
      some (((((1 : Int) - 1) * 86400 + ((0 : Int) - 0) * 3600 +
        ((10 : Int) - 0) * 60 + ((5 : Int) - 0)).emod 86400 : Int) : ℚ)) :=
  ⟨by decide,
   naive_target_amended [rideWit] cWit bWit 263 false false false false
     (Mat.dense [[1, 1, 1, 1, 1, 3, 5, 7, 11, 13, 1, 0, 0, 0, 0, 0, 0, 1, 0, 0, 0, 0]])
     [(605 : ℚ)] (by decide) 0 rideWit rfl
     ⟨1, 1, 0, 0, 0, 3⟩ ⟨1, 1, 0, 10, 5, 3⟩ (by decide) (by decide)⟩

/-! ## Claim C9: one-hot datetime encoding -/

/-- A valid timestamp string: it parses (which already validates the
calendar date — `datetime.date` raises otherwise) and its time-of-day
fields are in range (the source never checks those, so validity of the
input is an assumption of the claim). -/
def isValidTimestampStr (s : String) : Bool :=
  match parseOne s with
  | some t => t.hour ≤ 23 && t.minute ≤ 59 && t.second ≤ 59
  | none => false

/-- Exactly one entry equal to 1, every other entry equal to 0. -/
def isUnitRow (v : List ℚ) : Bool :=
  (v.count 1 == 1) && v.all (fun x => x == 0 || x == 1)

theorem oneHotRow_length (j w : Nat) (h : j < w) : (oneHotRow j w).length = w := by
  simp [oneHotRow]
  omega

theorem isUnitRow_oneHotRow (j w : Nat) (h : j < w) : isUnitRow (oneHotRow j w) = true := by
  unfold isUnitRow oneHotRow
  rw [Bool.and_eq_true]
  constructor
  · rw [List.count_append, List.count_cons, List.count_replicate, List.count_replicate]
    norm_num
  · rw [List.all_eq_true]
    intro x hx
    rcases List.mem_append.mp hx with hx1 | hx2
    · rw [(List.eq_of_mem_replicate hx1 : x = 0)]; decide
    · rcases List.mem_cons.mp hx2 with rfl | hx3
      · decide
      · rw [(List.eq_of_mem_replicate hx3 : x = 0)]; decide

theorem mapM_option_forall_some {α β : Type} (f : α → Option β) :
    ∀ xs : List α, (∀ x ∈ xs, (f x).isSome = true) →
      ∃ ys, xs.mapM f = some ys ∧ ys.length = xs.length ∧
        ∀ y ∈ ys, ∃ x ∈ xs, f x = some y := by
  intro xs
  induction xs with
  | nil => intro _; exact ⟨[], rfl, rfl, by simp⟩
  | cons x xs ih =>
    intro hall
    obtain ⟨y, hy⟩ := Option.isSome_iff_exists.mp (hall x (by simp))
    obtain ⟨ys, hys, hlen, hmem⟩ := ih (fun a ha => hall a (by simp [ha]))
    refine ⟨y :: ys, ?_, by simp [hlen], ?_⟩
    · rw [List.mapM_cons, hy, hys]; rfl
    · intro z hz
      rcases List.mem_cons.mp hz with rfl | hz2
      · exact ⟨x, by simp, hy⟩
      · obtain ⟨a, ha, hfa⟩ := hmem z hz2
        exact ⟨a, by simp [ha], hfa⟩

theorem daysInMonth_le_31 (y m : Int) : daysInMonth y m ≤ 31 := by
  unfold daysInMonth
  split
  · split <;> omega
  · split <;> omega

theorem validDate_bounds (y m d : Int) (h : validDate y m d = true) :
    1 ≤ m ∧ m ≤ 12 ∧ 1 ≤ d ∧ d ≤ 31 := by
  simp only [validDate, Bool.and_eq_true, decide_eq_true_eq] at h
  have := daysInMonth_le_31 y m
  omega

theorem pyWeekday_bounds (y m d : Int) :
    1 ≤ pyWeekday y m d + 1 ∧ pyWeekday y m d + 1 ≤ 7 := by
  have h1 : 0 ≤ pyWeekday y m d := Int.emod_nonneg _ (by norm_num)
  have h2 : pyWeekday y m d < 7 := Int.emod_lt_of_pos _ (by norm_num)
  omega

theorem parseOne_bounds (s : String) (t : DTComp) (h : parseOne s = some t) :
    1 ≤ t.date ∧ t.date ≤ 31 ∧ 1 ≤ t.month ∧ t.month ≤ 12 ∧
    0 ≤ t.hour ∧ 0 ≤ t.minute ∧ 0 ≤ t.second ∧ 1 ≤ t.weekday ∧ t.weekday ≤ 7 := by
  unfold parseOne at h
  split at h
  all_goals try exact Option.noConfusion h
  split at h
  all_goals try exact Option.noConfusion h
  split at h
  all_goals try exact Option.noConfusion h
  rename_i hval
  injection h with h
  subst h
  dsimp only
  obtain ⟨hm1, hm2, hd1, hd2⟩ := validDate_bounds _ _ _ hval
  exact ⟨hd1, hd2, hm1, hm2, Int.natCast_nonneg _, Int.natCast_nonneg _,
    Int.natCast_nonneg _, (pyWeekday_bounds _ _ _).1, (pyWeekday_bounds _ _ _).2⟩

theorem get_one_hot_of_bounds (values : List Int) (mn mx : Int)
    (h : ∀ v ∈ values, mn ≤ v ∧ v ≤ mx) :
    get_one_hot values mn mx =
      some (values.map (fun v => oneHotRow (v - mn).toNat (mx - mn + 1).toNat)) := by
  unfold get_one_hot
  rw [if_pos]
  rw [List.all_eq_true]
  intro v hv
  have := h v hv
  simp [this.1, this.2]

theorem hstack2_map {α : Type} (l : List α) (f g : α → List ℚ) :
    hstack2 (l.map f) (l.map g) = l.map (fun x => f x ++ g x) := by
  induction l with
  | nil => rfl
  | cons x l ih => simpa [hstack2] using ih

/-- The value of `obtain_date_time_features` with both one-hot flags on,
for component lists that are all in range. -/
theorem obtain_date_time_features_onehot (dts : List DTComp)
    (hb : ∀ t ∈ dts, 1 ≤ t.date ∧ t.date ≤ 31 ∧ 1 ≤ t.month ∧ t.month ≤ 12 ∧
      0 ≤ t.hour ∧ t.hour ≤ 23 ∧ 0 ≤ t.minute ∧ t.minute ≤ 59 ∧
      0 ≤ t.second ∧ t.second ≤ 59 ∧ 1 ≤ t.weekday ∧ t.weekday ≤ 7) :
    obtain_date_time_features dts true true =
      some (dts.map fun t =>
        ((((oneHotRow (t.date - 1).toNat 31 ++ oneHotRow (t.month - 1).toNat 12) ++
           oneHotRow t.hour.toNat 24) ++ oneHotRow t.minute.toNat 60) ++
           oneHotRow t.second.toNat 60) ++ oneHotRow (t.weekday - 1).toNat 7) := by
  have h1 : get_one_hot (dts.map (fun t => t.date)) 1 31 =
      some (dts.map fun t => oneHotRow (t.date - 1).toNat 31) := by
    rw [get_one_hot_of_bounds]
    · norm_num [List.map_map, Function.comp, Int.toNat_ofNat]
      intro a _
      rfl
    · intro v hv
      obtain ⟨t, ht, rfl⟩ := List.mem_map.mp hv
      exact ⟨(hb t ht).1, (hb t ht).2.1⟩
  have h2 : get_one_hot (dts.map (fun t => t.month)) 1 12 =
      some (dts.map fun t => oneHotRow (t.month - 1).toNat 12) := by
    rw [get_one_hot_of_bounds]
    · norm_num [List.map_map, Function.comp, Int.toNat_ofNat]
      intro a _
      rfl
    · intro v hv
      obtain ⟨t, ht, rfl⟩ := List.mem_map.mp hv
      exact ⟨(hb t ht).2.2.1, (hb t ht).2.2.2.1⟩
  have h3 : get_one_hot (dts.map (fun t => t.hour)) 0 23 =
      some (dts.map fun t => oneHotRow t.hour.toNat 24) := by
    rw [get_one_hot_of_bounds]
    · norm_num [List.map_map, Function.comp, Int.toNat_ofNat]
      intro a _
      rfl
    · intro v hv
      obtain ⟨t, ht, rfl⟩ := List.mem_map.mp hv
      exact ⟨(hb t ht).2.2.2.2.1, (hb t ht).2.2.2.2.2.1⟩
  have h4 : get_one_hot (dts.map (fun t => t.minute)) 0 59 =
      some (dts.map fun t => oneHotRow t.minute.toNat 60) := by
    rw [get_one_hot_of_bounds]
    · norm_num [List.map_map, Function.comp, Int.toNat_ofNat]
      intro a _
      rfl
    · intro v hv
      obtain ⟨t, ht, rfl⟩ := List.mem_map.mp hv
      exact ⟨(hb t ht).2.2.2.2.2.2.1, (hb t ht).2.2.2.2.2.2.2.1⟩
  have h5 : get_one_hot (dts.map (fun t => t.second)) 0 59 =
      some (dts.map fun t => oneHotRow t.second.toNat 60) := by
    rw [get_one_hot_of_bounds]
    · norm_num [List.map_map, Function.comp, Int.toNat_ofNat]
      intro a _
      rfl
    · intro v hv
      obtain ⟨t, ht, rfl⟩ := List.mem_map.mp hv
      exact ⟨(hb t ht).2.2.2.2.2.2.2.2.1, (hb t ht).2.2.2.2.2.2.2.2.2.1⟩
  have h6 : get_one_hot (dts.map (fun t => t.weekday)) 1 7 =
      some (dts.map fun t => oneHotRow (t.weekday - 1).toNat 7) := by
    rw [get_one_hot_of_bounds]
    · norm_num [List.map_map, Function.comp, Int.toNat_ofNat]
      intro a _
      rfl
    · intro v hv
      obtain ⟨t, ht, rfl⟩ := List.mem_map.mp hv
      exact ⟨(hb t ht).2.2.2.2.2.2.2.2.2.2.1, (hb t ht).2.2.2.2.2.2.2.2.2.2.2⟩
  unfold obtain_date_time_features
  simp only [reduceIte, h1, h2, h3, h4, h5, h6, Option.bind_eq_bind, Option.some_bind,
    Option.pure_def, hstack2_map, Option.some.injEq]

/-- Splitting a row concatenated from six blocks of widths
31, 12, 24, 60, 60, 7 back into its sub-blocks. -/
theorem unit_blocks_of_six (b1 b2 b3 b4 b5 b6 : List ℚ)
    (h1 : b1.length = 31) (h2 : b2.length = 12) (h3 : b3.length = 24)
    (h4 : b4.length = 60) (h5 : b5.length = 60) (h6 : b6.length = 7)
    (u1 : isUnitRow b1 = true) (u2 : isUnitRow b2 = true) (u3 : isUnitRow b3 = true)
    (u4 : isUnitRow b4 = true) (u5 : isUnitRow b5 = true) (u6 : isUnitRow b6 = true) :
    (((((b1 ++ b2) ++ b3) ++ b4) ++ b5) ++ b6).length = 194 ∧
    isUnitRow ((((((b1 ++ b2) ++ b3) ++ b4) ++ b5) ++ b6).take 31) = true ∧
    isUnitRow (((((((b1 ++ b2) ++ b3) ++ b4) ++ b5) ++ b6).drop 31).take 12) = true ∧
    isUnitRow (((((((b1 ++ b2) ++ b3) ++ b4) ++ b5) ++ b6).drop 43).take 24) = true ∧
    isUnitRow (((((((b1 ++ b2) ++ b3) ++ b4) ++ b5) ++ b6).drop 67).take 60) = true ∧
    isUnitRow (((((((b1 ++ b2) ++ b3) ++ b4) ++ b5) ++ b6).drop 127).take 60) = true ∧
    isUnitRow ((((((b1 ++ b2) ++ b3) ++ b4) ++ b5) ++ b6).drop 187) = true := by
  have hr : ((((b1 ++ b2) ++ b3) ++ b4) ++ b5) ++ b6 =
      b1 ++ (b2 ++ (b3 ++ (b4 ++ (b5 ++ b6)))) := by
    simp [List.append_assoc]
  rw [hr]
  have d31 : (b1 ++ (b2 ++ (b3 ++ (b4 ++ (b5 ++ b6))))).drop 31 =
      b2 ++ (b3 ++ (b4 ++ (b5 ++ b6))) := List.drop_left' h1
  have d43 : (b1 ++ (b2 ++ (b3 ++ (b4 ++ (b5 ++ b6))))).drop 43 =
      b3 ++ (b4 ++ (b5 ++ b6)) := by
    have h43 : (43 : Nat) = 31 + 12 := by norm_num
    rw [h43, ← List.drop_drop, d31, List.drop_left' h2]
  have d67 : (b1 ++ (b2 ++ (b3 ++ (b4 ++ (b5 ++ b6))))).drop 67 =
      b4 ++ (b5 ++ b6) := by
    have h67 : (67 : Nat) = 43 + 24 := by norm_num
    rw [h67, ← List.drop_drop, d43, List.drop_left' h3]
  have d127 : (b1 ++ (b2 ++ (b3 ++ (b4 ++ (b5 ++ b6))))).drop 127 =
      b5 ++ b6 := by
    have h127 : (127 : Nat) = 67 + 60 := by norm_num
    rw [h127, ← List.drop_drop, d67, List.drop_left' h4]
  have d187 : (b1 ++ (b2 ++ (b3 ++ (b4 ++ (b5 ++ b6))))).drop 187 = b6 := by
    have h187 : (187 : Nat) = 127 + 60 := by norm_num
    rw [h187, ← List.drop_drop, d127, List.drop_left' h5]
  refine ⟨?_, ?_, ?_, ?_, ?_, ?_, ?_⟩
  · simp [h1, h2, h3, h4, h5, h6]
  · rw [List.take_left' h1]; exact u1
  · rw [d31, List.take_left' h2]; exact u2
  · rw [d43, List.take_left' h3]; exact u3
  · rw [d67, List.take_left' h4]; exact u4
  · rw [d127, List.take_left' h5]; exact u5
  · rw [d187]; exact u6

/-- Claim C9: for every list of valid timestamp strings, `parse_datetime`
followed by `obtain_date_time_features` with both one-hot flags enabled
succeeds and yields, in each row, exactly one 1 and otherwise 0 within
each sub-block, with sub-block widths 31 (day), 12 (month), 24 (hour),
60 (minute), 60 (second) and 7 (weekday), concatenated in that fixed
order (total row width 194). -/
theorem datetime_onehot_blocks (strs : List String)
    (hv : ∀ s ∈ strs, isValidTimestampStr s = true) :
    ∃ dts M, parse_datetime strs = some dts ∧
      obtain_date_time_features dts true true = some M ∧
      M.length = strs.length ∧
      ∀ row ∈ M, row.length = 194 ∧
        isUnitRow (row.take 31) = true ∧
        isUnitRow ((row.drop 31).take 12) = true ∧
        isUnitRow ((row.drop 43).take 24) = true ∧
        isUnitRow ((row.drop 67).take 60) = true ∧
        isUnitRow ((row.drop 127).take 60) = true ∧
        isUnitRow (row.drop 187) = true := by
  have hsome : ∀ s ∈ strs, (parseOne s).isSome = true := by
    intro s hs
    have h := hv s hs
    unfold isValidTimestampStr at h
    cases hps : parseOne s with
    | none => rw [hps] at h; simp at h
    | some t => simp
  obtain ⟨dts, hdts, hlen, horigin⟩ := mapM_option_forall_some parseOne strs hsome
  have hb : ∀ t ∈ dts, 1 ≤ t.date ∧ t.date ≤ 31 ∧ 1 ≤ t.month ∧ t.month ≤ 12 ∧
      0 ≤ t.hour ∧ t.hour ≤ 23 ∧ 0 ≤ t.minute ∧ t.minute ≤ 59 ∧
      0 ≤ t.second ∧ t.second ≤ 59 ∧ 1 ≤ t.weekday ∧ t.weekday ≤ 7 := by
    intro t ht
    obtain ⟨s, hs, hps⟩ := horigin t ht
    obtain ⟨b1, b2, b3, b4, b5, b6, b7, b8, b9⟩ := parseOne_bounds s t hps
    have h2 := hv s hs
    unfold isValidTimestampStr at h2
    rw [hps] at h2
    simp only [Bool.and_eq_true, decide_eq_true_eq] at h2
    exact ⟨b1, b2, b3, b4, b5, h2.1.1, b6, h2.1.2, b7, h2.2, b8, b9⟩
  refine ⟨dts, _, hdts, obtain_date_time_features_onehot dts hb, by simp [hlen], ?_⟩
  intro row hrow
  obtain ⟨t, ht, rfl⟩ := List.mem_map.mp hrow
  obtain ⟨c1, c2, c3, c4, c5, c6, c7, c8, c9, c10, c11, c12⟩ := hb t ht
  exact unit_blocks_of_six _ _ _ _ _ _
    (oneHotRow_length _ _ (by omega)) (oneHotRow_length _ _ (by omega))
    (oneHotRow_length _ _ (by omega)) (oneHotRow_length _ _ (by omega))
    (oneHotRow_length _ _ (by omega)) (oneHotRow_length _ _ (by omega))
    (isUnitRow_oneHotRow _ _ (by omega)) (isUnitRow_oneHotRow _ _ (by omega))
    (isUnitRow_oneHotRow _ _ (by omega)) (isUnitRow_oneHotRow _ _ (by omega))
    (isUnitRow_oneHotRow _ _ (by omega)) (isUnitRow_oneHotRow _ _ (by omega))

theorem datetime_onehot_blocks_witness :
    (∀ s ∈ ["2020-01-01 00:10:05"], isValidTimestampStr s = true) ∧
    (∃ dts M, parse_datetime ["2020-01-01 00:10:05"] = some dts ∧
      obtain_date_time_features dts true true = some M ∧
      M.length = ["2020-01-01 00:10:05"].length ∧
      ∀ row ∈ M, row.length = 194 ∧
        isUnitRow (row.take 31) = true ∧
        isUnitRow ((row.drop 31).take 12) = true ∧
        isUnitRow ((row.drop 43).take 24) = true ∧
        isUnitRow ((row.drop 67).take 60) = true ∧
        isUnitRow ((row.drop 127).take 60) = true ∧
        isUnitRow (row.drop 187) = true) :=
  ⟨by decide, datetime_onehot_blocks ["2020-01-01 00:10:05"] (by decide)⟩

/-! ## Claim C7: the reference loader -/

theorem npSet_dest {α : Type} {l : List α} {i : Int} {v : α} {l2 : List α}
    (hi : 0 ≤ i) (h : npSet l i v = some l2) :
    i < (l.length : Int) ∧ l2 = l.set i.toNat v := by
  unfold npSet at h
  split at h
  · rename_i hc
    refine ⟨hc.2, ?_⟩
    injection h with h
    exact h.symm
  · split at h
    · rename_i hc2
      exact absurd hc2.2 (by omega)
    · exact Option.noConfusion h

theorem npSet_get_ne {α : Type} {l : List α} {i : Int} {v : α} {l2 : List α} (j : Nat)
    (hi : 0 ≤ i) (h : npSet l i v = some l2) (hne : i ≠ (j : Int)) :
    l2.get? j = l.get? j := by
  obtain ⟨_, rfl⟩ := npSet_dest hi h
  exact List.get?_set_ne v l (by omega)

theorem npSet_get_self {α : Type} {l : List α} {i : Int} {v : α} {l2 : List α}
    (hi : 0 ≤ i) (h : npSet l i v = some l2) :
    l2.get? i.toNat = some v := by
  obtain ⟨hlt, rfl⟩ := npSet_dest hi h
  exact List.get?_set_eq_of_lt v (by omega)

theorem npSet_length {α : Type} {l : List α} {i : Int} {v : α} {l2 : List α}
    (h : npSet l i v = some l2) : l2.length = l.length := by
  unfold npSet at h
  split at h
  · injection h with h; rw [← h, List.length_set]
  · split at h
    · injection h with h; rw [← h, List.length_set]
    · exact Option.noConfusion h

theorem replicate_get_lt {α : Type} (a : α) : ∀ (n j : Nat), j < n →
    (List.replicate n a).get? j = some a := by
  intro n
  induction n with
  | zero => intro j h; omega
  | succ n ih =>
    intro j h
    cases j with
    | zero => rfl
    | succ j => simpa [List.replicate] using ih j (by omega)

theorem placeCoords_length : ∀ (rows : List (Int × ℚ × ℚ)) (acc A : List (ℚ × ℚ)),
    placeCoords rows acc = some A → A.length = acc.length := by
  intro rows
  induction rows with
  | nil => intro acc A h; injection h with h; rw [h]
  | cons r rest ih =>
    intro acc A h
    unfold placeCoords at h
    split at h
    · exact Option.noConfusion h
    · rename_i acc2 hset
      rw [ih acc2 A h, npSet_length hset]

theorem placeCoords_get_untouched : ∀ (rows : List (Int × ℚ × ℚ)) (acc A : List (ℚ × ℚ))
    (j : Nat), placeCoords rows acc = some A → (∀ r ∈ rows, 1 ≤ r.1) →
    (∀ r ∈ rows, r.1 - 1 ≠ (j : Int)) → A.get? j = acc.get? j := by
  intro rows
  induction rows with
  | nil => intro acc A j h _ _; injection h with h; rw [h]
  | cons r rest ih =>
    intro acc A j h hids hne
    unfold placeCoords at h
    split at h
    · exact Option.noConfusion h
    · rename_i acc2 hset
      have h1 : 0 ≤ r.1 - 1 := by have := hids r (by simp); omega
      rw [ih acc2 A j h (fun t ht => hids t (by simp [ht]))
            (fun t ht => hne t (by simp [ht])),
          npSet_get_ne j h1 hset (hne r (by simp))]

theorem placeCoords_get_mem : ∀ (rows : List (Int × ℚ × ℚ)) (acc A : List (ℚ × ℚ)),
    placeCoords rows acc = some A → (∀ r ∈ rows, 1 ≤ r.1) →
    (rows.map (·.1)).Nodup →
    ∀ r ∈ rows, A.get? (r.1 - 1).toNat = some r.2 := by
  intro rows
  induction rows with
  | nil => intro acc A _ _ _ r hr; exact absurd hr (by simp)
  | cons r0 rest ih =>
    intro acc A h hids hnd r hr
    unfold placeCoords at h
    split at h
    · exact Option.noConfusion h
    · rename_i acc2 hset
      have hnd2 : r0.1 ∉ rest.map (fun x => x.1) ∧ (rest.map (fun x => x.1)).Nodup :=
        List.nodup_cons.mp hnd
      rcases List.mem_cons.mp hr with rfl | hr2
      · have h1 : 0 ≤ r.1 - 1 := by have := hids r (by simp); omega
        have huntouched : A.get? (r.1 - 1).toNat = acc2.get? (r.1 - 1).toNat := by
          refine placeCoords_get_untouched rest acc2 A _ h
            (fun t ht => hids t (by simp [ht])) (fun t ht => ?_)
          have htne : t.1 ≠ r.1 := by
            intro hcontra
            exact hnd2.1 (hcontra ▸ List.mem_map_of_mem (·.1) ht)
          omega
        rw [huntouched, npSet_get_self h1 hset]
      · exact ih acc2 A h (fun t ht => hids t (by simp [ht])) hnd2.2 r hr2

theorem foldl_min_le_init (xs : List ℚ) : ∀ x : ℚ, xs.foldl min x ≤ x := by
  induction xs with
  | nil => intro x; exact le_refl x
  | cons a l ih =>
    intro x
    calc (a :: l).foldl min x = l.foldl min (min x a) := rfl
      _ ≤ min x a := ih (min x a)
      _ ≤ x := min_le_left x a

theorem foldl_min_le_mem (xs : List ℚ) : ∀ (x y : ℚ), y ∈ xs → xs.foldl min x ≤ y := by
  induction xs with
  | nil => intro x y hy; exact absurd hy (by simp)
  | cons a l ih =>
    intro x y hy
    rcases List.mem_cons.mp hy with rfl | hy2
    · calc (y :: l).foldl min x = l.foldl min (min x y) := rfl
        _ ≤ min x y := foldl_min_le_init l (min x y)
        _ ≤ y := min_le_right x y
    · exact ih (min x a) y hy2

theorem le_foldl_max_init (xs : List ℚ) : ∀ x : ℚ, x ≤ xs.foldl max x := by
  induction xs with
  | nil => intro x; exact le_refl x
  | cons a l ih =>
    intro x
    calc x ≤ max x a := le_max_left x a
      _ ≤ l.foldl max (max x a) := ih (max x a)
      _ = (a :: l).foldl max x := rfl

theorem le_foldl_max_mem (xs : List ℚ) : ∀ (x y : ℚ), y ∈ xs → y ≤ xs.foldl max x := by
  induction xs with
  | nil => intro x y hy; exact absurd hy (by simp)
  | cons a l ih =>
    intro x y hy
    rcases List.mem_cons.mp hy with rfl | hy2
    · calc y ≤ max x y := le_max_right x y
        _ ≤ l.foldl max (max x y) := le_foldl_max_init l (max x y)
        _ = (y :: l).foldl max x := rfl
    · exact ih (max x a) y hy2

theorem mmScale_mem_unit (mn mx x : ℚ) (h1 : mn ≤ x) (h2 : x ≤ mx) :
    0 ≤ mmScale mn (mx - mn) x ∧ mmScale mn (mx - mn) x ≤ 1 := by
  unfold mmScale
  split
  · rename_i hz
    constructor
    · linarith
    · have : x - mn ≤ 0 := by linarith [sub_eq_zero.mp hz ▸ h2]
      linarith
  · rename_i hz
    have hpos : 0 < mx - mn := by
      rcases lt_or_eq_of_le (le_trans h1 h2) with hlt | heq
      · linarith
      · exact absurd (by rw [heq]; ring) hz
    constructor
    · exact div_nonneg (by linarith) (le_of_lt hpos)
    · rw [div_le_one hpos]; linarith

theorem minMaxScale_unit (A B : List (ℚ × ℚ)) (h : minMaxScale A = some B) :
    ∀ p ∈ B, 0 ≤ p.1 ∧ p.1 ≤ 1 ∧ 0 ≤ p.2 ∧ p.2 ≤ 1 := by
  unfold minMaxScale at h
  cases A with
  | nil => exact Option.noConfusion h
  | cons p0 ps =>
    injection h with h
    intro q hq
    rw [← h] at hq
    obtain ⟨r, hr, rfl⟩ := List.mem_map.mp hq
    have hmn1 : colMin p0.1 (ps.map (·.1)) ≤ r.1 := by
      rcases List.mem_cons.mp hr with rfl | hr2
      · exact foldl_min_le_init _ _
      · exact foldl_min_le_mem _ _ _ (List.mem_map_of_mem (·.1) hr2)
    have hmx1 : r.1 ≤ colMax p0.1 (ps.map (·.1)) := by
      rcases List.mem_cons.mp hr with rfl | hr2
      · exact le_foldl_max_init _ _
      · exact le_foldl_max_mem _ _ _ (List.mem_map_of_mem (·.1) hr2)
    have hmn2 : colMin p0.2 (ps.map (·.2)) ≤ r.2 := by
      rcases List.mem_cons.mp hr with rfl | hr2
      · exact foldl_min_le_init _ _
      · exact foldl_min_le_mem _ _ _ (List.mem_map_of_mem (·.2) hr2)
    have hmx2 : r.2 ≤ colMax p0.2 (ps.map (·.2)) := by
      rcases List.mem_cons.mp hr with rfl | hr2
      · exact le_foldl_max_init _ _
      · exact le_foldl_max_mem _ _ _ (List.mem_map_of_mem (·.2) hr2)
    obtain ⟨u1, u2⟩ := mmScale_mem_unit _ _ _ hmn1 hmx1
    obtain ⟨v1, v2⟩ := mmScale_mem_unit _ _ _ hmn2 hmx2
    exact ⟨u1, u2, v1, v2⟩

/-- Claim C7: `extract_all_coordinates` (for a well-formed coordinates
table: distinct ids, ids ≥ 1, and a run that does not raise) places the
coordinates of every fetched `(ID, lat, lon)` triple at index `ID-1` of
the pre-normalization array (index `ID` of the final array after the
zero row is prepended), leaves every unreferenced index zero in that
array, keeps index 0 of the output as the all-zero sentinel also after
normalization, and, with normalization enabled, every entry of the
output lies in `[0,1]` on both axes; `extract_all_boroughs` likewise
returns an array whose row 0 is all-zero. -/
theorem reference_loader_spec (rows : List (Int × ℚ × ℚ)) (normalized : Bool)
    (out : List (ℚ × ℚ))
    (hids : ∀ r ∈ rows, 1 ≤ r.1) (hnd : (rows.map (·.1)).Nodup)
    (hout : extract_all_coordinates rows normalized = some out) :
    out.get? 0 = some (0, 0) ∧
    (∃ A A2, placeCoords rows (List.replicate rows.length (0, 0)) = some A ∧
       (∀ r ∈ rows, A.get? (r.1 - 1).toNat = some r.2) ∧
       (∀ j : Nat, j < rows.length → (∀ r ∈ rows, r.1 ≠ (j : Int) + 1) →
          A.get? j = some (0, 0)) ∧
       (if normalized then minMaxScale A else some A) = some A2 ∧
       out = (0, 0) :: A2) ∧
    (normalized = true → ∀ p ∈ out, 0 ≤ p.1 ∧ p.1 ≤ 1 ∧ 0 ≤ p.2 ∧ p.2 ≤ 1) ∧
    (∀ (brows : List (Int × String)) (m : Nat) (M : List (List ℚ)),
       extract_all_boroughs brows m = some M → M.get? 0 = some (List.replicate 6 0)) := by
  unfold extract_all_coordinates at hout
  obtain ⟨A, hA, hout⟩ := Option.bind_eq_some.mp hout
  obtain ⟨A2, hA2', hout⟩ := Option.bind_eq_some.mp hout
  injection hout with hout
  subst hout
  refine ⟨rfl, ⟨A, A2, hA, placeCoords_get_mem rows _ A hA hids hnd, ?_, hA2', rfl⟩,
    ?_, ?_⟩
  · intro j hj hnot
    rw [placeCoords_get_untouched rows _ A j hA hids
          (fun r hr => by have := hnot r hr; omega),
        replicate_get_lt _ _ _ hj]
  · intro hnorm
    subst hnorm
    simp only [if_pos rfl] at hA2'
    intro p hp
    rcases List.mem_cons.mp hp with rfl | hp2
    · norm_num
    · exact minMaxScale_unit A A2 hA2' p hp2
  · intro brows m M hM
    unfold extract_all_boroughs at hM
    obtain ⟨filled, hf, hM⟩ := Option.bind_eq_some.mp hM
    obtain ⟨oh, hoh, hM⟩ := Option.bind_eq_some.mp hM
    injection hM with hM
    rw [← hM]
    rfl

/-- The coordinates table of the C7 witness. -/
def coordRowsWit : List (Int × ℚ × ℚ) := [(1, 5, 7), (2, 11, 13)]

theorem reference_loader_spec_witness :
    ((∀ r ∈ coordRowsWit, 1 ≤ r.1) ∧ (coordRowsWit.map (·.1)).Nodup ∧
      extract_all_coordinates coordRowsWit false = some [(0, 0), (5, 7), (11, 13)]) ∧
    ([((0 : ℚ), (0 : ℚ)), (5, 7), (11, 13)].get? 0 = some (0, 0) ∧
     (∃ A A2, placeCoords coordRowsWit (List.replicate coordRowsWit.length (0, 0)) = some A ∧
        (∀ r ∈ coordRowsWit, A.get? (r.1 - 1).toNat = some r.2) ∧
        (∀ j : Nat, j < coordRowsWit.length → (∀ r ∈ coordRowsWit, r.1 ≠ (j : Int) + 1) →
           A.get? j = some (0, 0)) ∧
        (if false then minMaxScale A else some A) = some A2 ∧
        [((0 : ℚ), (0 : ℚ)), (5, 7), (11, 13)] = (0, 0) :: A2) ∧
     (false = true → ∀ p ∈ [((0 : ℚ), (0 : ℚ)), (5, 7), (11, 13)],
        0 ≤ p.1 ∧ p.1 ≤ 1 ∧ 0 ≤ p.2 ∧ p.2 ≤ 1) ∧
     (∀ (brows : List (Int × String)) (m : Nat) (M : List (List ℚ)),
        extract_all_boroughs brows m = some M → M.get? 0 = some (List.replicate 6 0))) :=
  ⟨⟨by decide, by decide, by decide⟩,
   reference_loader_spec coordRowsWit false [(0, 0), (5, 7), (11, 13)]
     (by decide) (by decide) (by decide)⟩

/-! ## Claims C5 and C4: the exhaustive paged scan -/

theorem goPages_congr_fuel (pages : Nat → PageResult) (numRows : Nat) (coords : List (ℚ × ℚ))
    (boros : List (List ℚ)) (opts : XOpts) (cutoff : ℚ) :
    ∀ (f1 f2 b : Nat) (acc : Option (Mat × List ℚ)),
      numRows ≤ (b + f1) * pageLimit → numRows ≤ (b + f2) * pageLimit →
      goPages pages numRows coords boros opts cutoff f1 b acc =
        goPages pages numRows coords boros opts cutoff f2 b acc := by
  intro f1
  induction f1 with
  | zero =>
    intro f2 b acc h1 h2
    have hcond : ¬ b * pageLimit < numRows := by
      simp only [pageLimit] at h1 ⊢; omega
    cases f2 with
    | zero => rfl
    | succ f2 =>
      simp only [goPages]
      rw [if_neg hcond]
  | succ f1 ih =>
    intro f2 b acc h1 h2
    cases f2 with
    | zero =>
      have hcond : ¬ b * pageLimit < numRows := by
        simp only [pageLimit] at h2 ⊢; omega
      simp only [goPages]
      rw [if_neg hcond]
    | succ f2 =>
      simp only [goPages]
      by_cases hcond : b * pageLimit < numRows
      · rw [if_pos hcond, if_pos hcond]
        cases hpg : pages b with
        | err => rfl
        | ok rows =>
          dsimp only
          by_cases hrows : rows = []
          · rw [if_pos hrows, if_pos hrows]
            exact ih f2 (b + 1) acc (by simp only [pageLimit] at h1 ⊢; omega)
              (by simp only [pageLimit] at h2 ⊢; omega)
          · rw [if_neg hrows, if_neg hrows]
            cases hnf : get_naive_features rows coords boros 263 opts.datetime_onehot
                opts.weekdays_onehot opts.include_loc_ids
                (if acc = none then opts.use_nn_ordering else false) with
            | none => rfl
            | some fo =>
              obtain ⟨fM, fO⟩ := fo
              exact ih f2 (b + 1) _ (by simp only [pageLimit] at h1 ⊢; omega)
                (by simp only [pageLimit] at h2 ⊢; omega)
      · rw [if_neg hcond, if_neg hcond]

theorem goPages_truncate (pages : Nat → PageResult) (numRows k : Nat) (coords : List (ℚ × ℚ))
    (boros : List (List ℚ)) (opts : XOpts) (cutoff : ℚ)
    (herr : pages k = PageResult.err) (hk : k * pageLimit < numRows) :
    ∀ (f b : Nat) (acc : Option (Mat × List ℚ)), b ≤ k →
      numRows ≤ (b + f) * pageLimit →
      goPages pages numRows coords boros opts cutoff f b acc =
        goPages pages (k * pageLimit) coords boros opts cutoff f b acc := by
  intro f
  induction f with
  | zero =>
    intro b acc hbk hsuf
    exfalso
    simp only [pageLimit] at hsuf hk
    omega
  | succ f ih =>
    intro b acc hbk hsuf
    rcases Nat.lt_or_ge b k with hblt | hbge
    · have hcl : b * pageLimit < numRows := by
        simp only [pageLimit] at hk ⊢; omega
      have hcr : b * pageLimit < k * pageLimit := by
        simp only [pageLimit]; omega
      simp only [goPages]
      rw [if_pos hcl, if_pos hcr]
      cases hpg : pages b with
      | err => rfl
      | ok rows =>
        dsimp only
        by_cases hrows : rows = []
        · rw [if_pos hrows, if_pos hrows]
          exact ih (b + 1) acc (by omega) (by simp only [pageLimit] at hsuf ⊢; omega)
        · rw [if_neg hrows, if_neg hrows]
          cases hnf : get_naive_features rows coords boros 263 opts.datetime_onehot
              opts.weekdays_onehot opts.include_loc_ids
              (if acc = none then opts.use_nn_ordering else false) with
          | none => rfl
          | some fo =>
            obtain ⟨fM, fO⟩ := fo
            exact ih (b + 1) _ (by omega) (by simp only [pageLimit] at hsuf ⊢; omega)
    · have hbk2 : b = k := Nat.le_antisymm hbk hbge
      subst hbk2
      simp only [goPages]
      rw [if_pos hk, if_neg (Nat.lt_irrefl _), herr]

/-- Claim C5 (counterexample): a query error at the very first page does
*not* return the (empty) accumulated result normally — `features` and
`outputs` were never assigned, so the `return` raises
`UnboundLocalError` and the whole call fails. -/
theorem extract_all_first_page_error_counterexample :
    extract_all_features (fun _ => PageResult.err) 1 cWit bWit
      ⟨true, true, true, false⟩ 100000 = none := by
  decide

/-- Claim C5 (amended): a query error at page `k` of the exhaustive scan
is treated exactly as end-of-data after `k` pages: the extraction result
equals what the call would return on a source holding only the first `k`
pages (`NUM_ROWS = k * limit`).  In particular, after at least one
successfully transformed non-empty page the call returns the accumulated
matrix and targets normally; but before any accumulation (e.g. an error
at the first page) both runs fail with `UnboundLocalError` instead of
returning an empty result. -/
theorem extract_all_error_truncates (pages : Nat → PageResult) (numRows k : Nat)
    (coords : List (ℚ × ℚ)) (boros : List (List ℚ)) (opts : XOpts) (cutoff : ℚ)
    (herr : pages k = PageResult.err) (hk : k * pageLimit < numRows) :
    extract_all_features pages numRows coords boros opts cutoff =
      extract_all_features pages (k * pageLimit) coords boros opts cutoff := by
  unfold extract_all_features
  rw [goPages_truncate pages numRows k coords boros opts cutoff herr hk numRows 0 none
        (Nat.zero_le k) (by simp only [pageLimit]; omega),
      goPages_congr_fuel pages (k * pageLimit) coords boros opts cutoff numRows
        (k * pageLimit) 0 none
        (by simp only [pageLimit] at hk ⊢; omega)
        (by simp only [pageLimit]; omega)]

/-- Pages for the C5 witness: the first page is empty, the second errors. -/
def pagesErrWit : Nat → PageResult :=
  fun b => if b = 0 then PageResult.ok [] else PageResult.err

theorem extract_all_error_truncates_witness :
    (pagesErrWit 1 = PageResult.err ∧ 1 * pageLimit < 1000001) ∧
    extract_all_features pagesErrWit 1000001 cWit bWit ⟨true, true, true, false⟩ 100000 =
      extract_all_features pagesErrWit (1 * pageLimit) cWit bWit
        ⟨true, true, true, false⟩ 100000 :=
  ⟨⟨rfl, by decide⟩,
   extract_all_error_truncates pagesErrWit 1000001 1 cWit bWit
     ⟨true, true, true, false⟩ 100000 rfl (by decide)⟩

/-- Pages for the C4 run: every page holds the same single ride. -/
def pagesC4 : Nat → PageResult := fun _ => PageResult.ok [rideWit]

/-- The first-page row layout under `use_nn_ordering=True`,
`include_loc_ids=False`, no one-hot flags:
`[PUCoords, PUBoroughs, DOCoords, DOBoroughs, PUDatetime]`. -/
def rowNNWit : List ℚ :=
  [5, 7, 1, 0, 0, 0, 0, 0, 11, 13, 0, 1, 0, 0, 0, 0, 1, 1, 1, 1, 1, 3]

/-- The later-page row layout (the second call omits `use_nn_ordering`,
falling back to the default `False`):
`[PUDatetime, PUCoords, DOCoords, PUBoroughs, DOBoroughs]`. -/
def rowDefaultWit : List ℚ :=
  [1, 1, 1, 1, 1, 3, 5, 7, 11, 13, 1, 0, 0, 0, 0, 0, 0, 1, 0, 0, 0, 0]

/-- Claim C4 (code bug evaluation): an exhaustive extraction over two
pages that contain the *identical* ride, with `include_loc_ids=False`
and `use_nn_ordering=True`, returns a matrix whose first row (from page
0, which received `use_nn_ordering`) and second row (from page 1, whose
`get_naive_features` call omits it — lines 424-427; the block-shuffled
variant has the same omission at lines 619-620) are laid out with
*different* sub-block orderings, contradicting the fixed-ordering
invariant. -/
theorem extract_all_ordering_bug :
    extract_all_features pagesC4 2000000 cWit bWit ⟨false, false, false, true⟩ 100000 =
      some (Mat.dense [rowNNWit, rowDefaultWit], [605, 605]) ∧
    rowNNWit ≠ rowDefaultWit := by
  decide

end NYCETA
